import Mathlib

/-!
Verification of the Aimelia credential lifecycle manager and background
scheduler core, as documented by the repository (token management README,
`src/unnamed/part_010`; architecture notes in WARP.md) and its design
specification. The backend modules `token_manager.py`, `scheduler.py` and
the Fernet cipher wrapper are not present in the source tree — only their
documentation, callers and deployment scripts are — so those components are
modelled from the specification's words, as flagged on each definition.
The frontend `Dashboard` component is embedded directly from its source
(`src/unnamed/part_007`).
-/

namespace Aimelia

/-! ## Cipher Store

Modelled from the spec: the Fernet-based cipher wrapper (encrypt/decrypt of
secret payloads under a single symmetric key) is not in the source tree.
Per spec §4.1, `decrypt` fails with `DecryptionError` on corrupt, truncated
or wrong-key ciphertext, and authenticated encryption never yields a wrong
plaintext.  Plaintexts are byte lists, keys are naturals; the authentication
tag plays the role of Fernet's HMAC. -/

abbrev Plaintext := List Nat

/-- Modelled from the spec: a Fernet-style token — a key identifier, the
payload, and an authentication tag over key and payload. -/
structure Ciphertext where
  keyId : Nat
  payload : List Nat
  tag : Nat
  deriving DecidableEq, Repr

/-- Keyed authentication tag (stands in for Fernet's HMAC). -/
def authTag (k : Nat) (p : List Nat) : Nat :=
  p.foldl (fun a b => a * 31 + b + 7) (k + 1)

/-- Error raised by the cipher store when a ciphertext is unusable. -/
inductive DecryptionError where
  | decryptionError
  deriving DecidableEq, Repr

/-- Modelled from the spec: `encrypt(plaintext) -> ciphertext` under key `k`. -/
def encrypt (k : Nat) (s : Plaintext) : Ciphertext :=
  ⟨k, s, authTag k s⟩

/-- Modelled from the spec: `decrypt(ciphertext) -> plaintext`, failing with
`DecryptionError` when the key does not match or the tag does not
authenticate the payload. -/
def decrypt (k : Nat) (c : Ciphertext) : Except DecryptionError Plaintext :=
  if c.keyId = k ∧ c.tag = authTag k c.payload then .ok c.payload
  else .error .decryptionError

/-! ## Credential Repository

Modelled from the spec: one credential record per principal (`user_tokens`
table in the documented schema), keyed by `principal_id`. -/

/-- A credential record as documented in the `user_tokens` schema:
both secrets stored only as ciphertext, with expiry and audit stamps. -/
structure TokenRecord where
  encrypted_access_secret : Ciphertext
  encrypted_refresh_secret : Ciphertext
  expires_at : Nat
  created_at : Nat
  updated_at : Nat
  deriving DecidableEq, Repr

/-- The repository: at most one record per principal id. -/
def Repo := String → Option TokenRecord

/-- Modelled from the spec: `get(principal_id) -> record | absent`. -/
def Repo.get (r : Repo) (p : String) : Option TokenRecord := r p

/-- Modelled from the spec: `upsert` atomically replaces the whole record. -/
def Repo.upsert (r : Repo) (p : String) (acc ref : Ciphertext)
    (expires now : Nat) : Repo :=
  fun q => if q = p then
    some ⟨acc, ref, expires,
      (match r p with | some old => old.created_at | none => now), now⟩
  else r q

/-- Modelled from the spec: `delete(principal_id)`, idempotent — deleting an
absent record is not an error. -/
def Repo.delete (r : Repo) (p : String) : Repo :=
  fun q => if q = p then none else r q

/-! ## Token Lifecycle Manager

Modelled from the spec: `token_manager.py` is not in the source tree (only
its documentation and callers are).  Spec §4.3: `store` encrypts both
secrets and upserts with `expires_at = now + expires_in_seconds`;
`get_valid_access_secret` loads, decrypts, refreshes inside the buffer
window, and distinguishes invalid from transient refresh failures;
`revoke` is a best-effort external call followed by unconditional local
deletion.  The documented refresh buffer is five minutes (300 seconds). -/

def REFRESH_BUFFER : Nat := 300

/-- Result of the external refresh operation on success: a fresh secret
pair and its issuer-reported lifetime. -/
structure RefreshSuccess where
  access_secret : Plaintext
  refresh_secret : Plaintext
  expires_in : Nat
  deriving DecidableEq, Repr

/-- Refresh failure classification provided by the external collaborator. -/
inductive RefreshError where
  | transient
  | invalid
  deriving DecidableEq, Repr

/-- The external refresh operation, a collaborator outside the core. -/
abbrev RefreshOp := Plaintext → Except RefreshError RefreshSuccess

/-- Modelled from the spec: `store(principal_id, access_secret,
refresh_secret, expires_in_seconds)` encrypts both secrets and upserts
with `expires_at = now + expires_in_seconds`. -/
def store (k now : Nat) (repo : Repo) (p : String)
    (access refresh : Plaintext) (expires_in : Nat) : Repo :=
  repo.upsert p (encrypt k access) (encrypt k refresh) (now + expires_in) now

/-- Outcome of one `get_valid_access_secret` call: the secret handed to the
caller (`none` = absent / authentication required), the repository after the
call, and how many times the external refresh operation was invoked. -/
structure GetResult where
  secret : Option Plaintext
  repo : Repo
  refreshCalls : Nat

/-- Modelled from the spec: the refresh path of `get_valid_access_secret`
(§4.3 step 4).  `prevAccess` is the still-decryptable current access secret,
if any, used as fallback on transient failure while not yet expired. -/
def refreshPath (k now : Nat) (refreshOp : RefreshOp) (repo : Repo)
    (p : String) (rec : TokenRecord) (prevAccess : Option Plaintext) :
    GetResult :=
  match decrypt k rec.encrypted_refresh_secret with
  | .error _ =>
    -- refresh secret unusable: no refresh call can be made; fall back to
    -- the current secret only if it is still genuinely unexpired
    match prevAccess with
    | some a => if now < rec.expires_at then ⟨some a, repo, 0⟩ else ⟨none, repo, 0⟩
    | none => ⟨none, repo, 0⟩
  | .ok rsec =>
    match refreshOp rsec with
    | .ok fresh =>
      ⟨some fresh.access_secret,
        store k now repo p fresh.access_secret fresh.refresh_secret fresh.expires_in,
        1⟩
    | .error .invalid => ⟨none, repo.delete p, 1⟩
    | .error .transient =>
      match prevAccess with
      | some a => if now < rec.expires_at then ⟨some a, repo, 1⟩ else ⟨none, repo, 1⟩
      | none => ⟨none, repo, 1⟩

/-- Modelled from the spec: `get_valid_access_secret(principal_id)`
(§4.3): load the record (absent → absent); decrypt the access secret
(failure → absent, proceed to the refresh path); refresh when inside the
buffer window; otherwise return the decrypted secret with no refresh call. -/
def get_valid_access_secret (k now : Nat) (refreshOp : RefreshOp)
    (repo : Repo) (p : String) : GetResult :=
  match repo.get p with
  | none => ⟨none, repo, 0⟩
  | some rec =>
    match decrypt k rec.encrypted_access_secret with
    | .error _ => refreshPath k now refreshOp repo p rec none
    | .ok access =>
      if rec.expires_at ≤ now + REFRESH_BUFFER then
        refreshPath k now refreshOp repo p rec (some access)
      else
        ⟨some access, repo, 0⟩

/-- Modelled from the spec: `revoke(principal_id)` — best-effort external
revocation (its success or failure, the first argument, is ignored), then
unconditional local deletion; the call itself always succeeds. -/
def revoke (_extOk : Bool) (repo : Repo) (p : String) : Bool × Repo :=
  (true, repo.delete p)

/-! ## Per-principal refresh serialization

Modelled from the spec: the concurrency contract of §4.3 — concurrent
`get_valid_access_secret` calls for one principal that all observe "near
expiry" serialize through a per-principal lock; a caller arriving while a
refresh is in flight waits for that refresh's result instead of issuing its
own; a caller arriving after the refresh completed reads the freshly stored
record and returns without any refresh call.  Callers for one principal are
interchangeable, so the state tracks how many are in each phase. -/

structure RefreshRace where
  pendingN : Nat
  waitingN : Nat
  refreshingN : Nat
  doneN : Nat
  lockHeld : Bool
  refreshed : Bool
  calls : Nat
  deriving DecidableEq, Repr

/-- Initial state: `n` concurrent callers, all observing "near expiry",
lock free, no refresh performed yet. -/
def RefreshRace.init (n : Nat) : RefreshRace :=
  ⟨n, 0, 0, 0, false, false, 0⟩

/-- Modelled from the spec: one interleaving step of the per-principal
refresh lock protocol.  A pending caller acquires the free lock and issues
the single refresh call; a pending caller that finds the lock held waits; a
finished refresh stores the fresh pair, releases the lock and wakes the
waiters, who (and any later-arriving pending caller) complete using the
refreshed record without a further refresh call. -/
inductive RaceStep : RefreshRace → RefreshRace → Prop where
  | takeLock (s : RefreshRace) (h : 0 < s.pendingN) (hl : s.lockHeld = false)
      (hr : s.refreshed = false) :
      RaceStep s { s with
        pendingN := s.pendingN - 1,
        refreshingN := s.refreshingN + 1,
        lockHeld := true,
        calls := s.calls + 1 }
  | goWait (s : RefreshRace) (h : 0 < s.pendingN) (hl : s.lockHeld = true) :
      RaceStep s { s with
        pendingN := s.pendingN - 1,
        waitingN := s.waitingN + 1 }
  | finishRefresh (s : RefreshRace) (h : 0 < s.refreshingN) :
      RaceStep s { s with
        refreshingN := s.refreshingN - 1,
        doneN := s.doneN + 1,
        lockHeld := false,
        refreshed := true }
  | wake (s : RefreshRace) (h : 0 < s.waitingN) (hr : s.refreshed = true) :
      RaceStep s { s with
        waitingN := s.waitingN - 1,
        doneN := s.doneN + 1 }
  | fastPath (s : RefreshRace) (h : 0 < s.pendingN) (hr : s.refreshed = true) :
      RaceStep s { s with
        pendingN := s.pendingN - 1,
        doneN := s.doneN + 1 }

/-- Reachability along interleaving steps of the refresh-lock protocol. -/
def RaceReachable (n : Nat) (s : RefreshRace) : Prop :=
  Relation.ReflTransGen RaceStep (RefreshRace.init n) s

/-! ## Scheduler

Modelled from the spec: `scheduler.py` (APScheduler-based background job
runner) is not in the source tree; only its HTTP control surface
(`SchedulerControl.tsx`, `runTaskNow`) and documentation are.  Spec §4.5:
per-job mutual exclusion — at most one concurrent execution per job name; a
`run_now` for a job already in flight is rejected rather than run
concurrently with itself; each finished execution leaves a Run Record with
its `[started_at, finished_at)` interval. -/

/-- A finalized Run Record of one job execution (observability artifact). -/
structure RunRecord where
  job_name : String
  started_at : Nat
  finished_at : Nat
  deriving DecidableEq, Repr

/-- Two Run Records overlap when they carry the same job name and their
half-open execution intervals intersect. -/
def RunRecord.overlaps (a b : RunRecord) : Prop :=
  a.job_name = b.job_name ∧
    max a.started_at b.started_at < min a.finished_at b.finished_at

/-- Scheduler state: the in-flight executions (job name with its start
time), the finalized Run Records, and the clock. -/
structure SchedState where
  inFlight : List (String × Nat)
  records : List RunRecord
  now : Nat

/-- Initial scheduler state: nothing running, no records, clock at zero. -/
def SchedState.init : SchedState := ⟨[], [], 0⟩

/-- Modelled from the spec: one scheduler event.  `dispatch` starts an
execution (whether from the trigger or from `run_now`) only when no
execution of that job name is in flight; `rejectRunNow` is the fate of a
`run_now` that arrives while the job is already running — no new execution
and no new record; `complete` finalizes an in-flight execution into a Run
Record; `tick` advances the clock. -/
inductive SchedStep : SchedState → SchedState → Prop where
  | tick (s : SchedState) (d : Nat) :
      SchedStep s ⟨s.inFlight, s.records, s.now + d⟩
  | dispatch (s : SchedState) (j : String)
      (h : ∀ e ∈ s.inFlight, e.1 ≠ j) :
      SchedStep s ⟨(j, s.now) :: s.inFlight, s.records, s.now⟩
  | rejectRunNow (s : SchedState) (j : String)
      (h : ∃ e ∈ s.inFlight, e.1 = j) :
      SchedStep s s
  | complete (s : SchedState) (j : String) (st : Nat)
      (h : (j, st) ∈ s.inFlight) :
      SchedStep s ⟨s.inFlight.filter (fun e => e.1 != j),
        ⟨j, st, s.now⟩ :: s.records, s.now⟩

/-- Reachability of scheduler states from the initial state. -/
def SchedReachable (s : SchedState) : Prop :=
  Relation.ReflTransGen SchedStep SchedState.init s

/-! ## Scheduler failure containment

Modelled from the spec: §4.5 failure semantics — an unhandled error from a
Task Operation is caught at the Scheduler boundary and recorded as
`failure`; the loop keeps running and every job still yields exactly one
Run outcome.  (The source documentation's middle outcome is spelled
"partial"; it is named `mixed` here.) -/

/-- Run outcome recorded for one execution. -/
inductive Outcome where
  | success
  | mixed
  | failure
  deriving DecidableEq, Repr

/-- What a Task Operation produces: a classified outcome, or an unhandled
error (carried as a diagnostic string). -/
abbrev TaskResult := Except String Outcome

/-- Modelled from the spec: the Scheduler boundary around one execution —
an unhandled Task Operation error is caught and recorded as `failure`. -/
def runOutcome : TaskResult → Outcome
  | .ok o => o
  | .error _ => .failure

/-- Modelled from the spec: one pass of the scheduling loop over a batch of
due jobs (name paired with its Task Operation's behavior); every job is
executed and recorded, errors notwithstanding. -/
def schedulerLoopRun (jobs : List (String × TaskResult)) :
    List (String × Outcome) :=
  jobs.map fun j => (j.1, runOutcome j.2)

/-! ## Dashboard component

Embedded from the source (`src/unnamed/part_007`, the frontend `Dashboard`
component): the render function branches, in order, on
`!isAuthenticated && !loading` (sign-in prompt), `loading` (spinner),
`!isAuthenticated` (null), else the main authenticated view; the mount
effect calls `loadDashboardData` only under `if (isAuthenticated)`; and
`loadDashboardData` — the only place issuing the dashboard's backend
requests, to `/emails/triage/run` and `/calendar/next24` — is otherwise
invoked only from controls rendered inside the main view. -/

inductive DashboardView where
  | signInPrompt
  | loadingView
  | nullView
  | mainView
  deriving DecidableEq, Repr

/-- The `Dashboard` component's render result as a function of the
authentication context (`isAuthenticated`) and its `loading` state,
mirroring the early returns of the source in order. -/
def dashboardView (isAuthenticated loading : Bool) : DashboardView :=
  if isAuthenticated = false ∧ loading = false then .signInPrompt
  else if loading = true then .loadingView
  else if isAuthenticated = false then .nullView
  else .mainView

/-- The backend endpoints `loadDashboardData` hits via `makeRequest`. -/
def loadDashboardDataRequests : List String :=
  ["/emails/triage/run", "/calendar/next24"]

/-- The mount effect: `useEffect` runs `loadDashboardData()` only when
`isAuthenticated` holds, so these are the requests it issues. -/
def mountEffectRequests (isAuthenticated : Bool) : List String :=
  if isAuthenticated then loadDashboardDataRequests else []

/-- Whether a rendered view contains any control wired to
`loadDashboardData` (the tab content's `onRefresh` handlers and the
`Header`'s refresh button all live inside the main authenticated view). -/
def viewCanInvokeLoad : DashboardView → Bool
  | .mainView => true
  | _ => false

/-! ## Theorems -/

/-- Decryption inverts encryption under the same key. -/
lemma decrypt_encrypt (k : Nat) (s : Plaintext) :
    decrypt k (encrypt k s) = .ok s := by
  simp [decrypt, encrypt]

/-- A successful decryption identifies the ciphertext as the encryption of
the returned plaintext under that key. -/
lemma decrypt_ok_eq_encrypt (k : Nat) (c : Ciphertext) (p : Plaintext)
    (h : decrypt k c = .ok p) : c = encrypt k p := by
  unfold decrypt at h
  split_ifs at h with hc
  obtain ⟨h1, h2⟩ := hc
  cases h
  cases c
  simp_all [encrypt]

/-- C3: round-trip — `decrypt(encrypt(S)) = S` under the same key; a
tampered ciphertext (one that is not the encryption of any plaintext under
the key: corrupt, truncated, or produced under a different key) always
fails with `DecryptionError`; and `decrypt` never returns a plaintext other
than the one originally encrypted, since any successfully decrypted
ciphertext is exactly the encryption of the returned plaintext. -/
theorem cipher_roundtrip_and_authenticity (k : Nat) (s : Plaintext)
    (c : Ciphertext) (p : Plaintext) :
    decrypt k (encrypt k s) = .ok s ∧
    ((¬ ∃ s0, c = encrypt k s0) → decrypt k c = .error .decryptionError) ∧
    (decrypt k c = .ok p → c = encrypt k p) := by
  refine ⟨decrypt_encrypt k s, ?_, decrypt_ok_eq_encrypt k c p⟩
  intro hno
  rcases h : decrypt k c with e | q
  · cases e
    rfl
  · exact absurd ⟨q, decrypt_ok_eq_encrypt k c q h⟩ hno

/-- Witness for C3 at concrete inputs: the round trip on the payload
`[2, 3]` under key `1`, and a tampered ciphertext (key id `2`, which no
encryption under key `1` produces) rejected with `DecryptionError`. -/
theorem cipher_roundtrip_and_authenticity_witness :
    decrypt 1 (encrypt 1 [2, 3]) = .ok [2, 3] ∧
    decrypt 1 ⟨2, [5], 0⟩ = .error .decryptionError := by
  refine ⟨(cipher_roundtrip_and_authenticity 1 [2, 3] ⟨2, [5], 0⟩ []).1, ?_⟩
  refine (cipher_roundtrip_and_authenticity 1 [2, 3] ⟨2, [5], 0⟩ []).2.1 ?_
  rintro ⟨s0, hs0⟩
  simp [encrypt] at hs0

/-- C8: `revoke` is idempotent — both calls report success whatever the
external revocation outcomes `e1`, `e2` were, and after either call the
repository holds no credential record for the principal; the local
deletion is unconditional and deleting an absent record is not an error. -/
theorem revoke_idempotent (repo : Repo) (p : String) (e1 e2 : Bool) :
    (revoke e1 repo p).1 = true ∧
    (revoke e2 (revoke e1 repo p).2 p).1 = true ∧
    Repo.get (revoke e1 repo p).2 p = none ∧
    Repo.get (revoke e2 (revoke e1 repo p).2 p).2 p = none := by
  simp [revoke, Repo.delete, Repo.get]

/-- A call against an absent record returns absent immediately, leaving the
repository untouched and making no refresh call. -/
lemma get_absent (k t : Nat) (op : RefreshOp) (repo : Repo) (p : String)
    (h : Repo.get repo p = none) :
    get_valid_access_secret k t op repo p = ⟨none, repo, 0⟩ := by
  unfold get_valid_access_secret
  rw [h]

/-- Deleting a principal's record makes it absent. -/
lemma get_delete_self (repo : Repo) (p : String) :
    Repo.get (Repo.delete repo p) p = none := by
  simp [Repo.get, Repo.delete]

/-- C1: immediately after a successful `store` (which sets
`expires_at = now + expires_in`), a `get_valid_access_secret` call at any
time `t` strictly before `expires_at - REFRESH_BUFFER` returns exactly the
stored access secret, leaves the repository unchanged, and invokes the
external refresh operation zero times. -/
theorem store_then_get_before_buffer
    (k now t expires_in : Nat) (repo0 : Repo) (p : String)
    (access refresh : Plaintext) (refreshOp : RefreshOp)
    (h : t + REFRESH_BUFFER < now + expires_in) :
    get_valid_access_secret k t refreshOp
        (store k now repo0 p access refresh expires_in) p
      = ⟨some access, store k now repo0 p access refresh expires_in, 0⟩ := by
  have hnear : ¬ (now + expires_in ≤ t + REFRESH_BUFFER) := by omega
  simp [get_valid_access_secret, Repo.get, store, Repo.upsert,
    decrypt_encrypt, hnear]

/-- Witness for C1: a pair stored at time 0 with a 3600-second lifetime is
returned unchanged, refresh-free, when read at time 100 (buffer 300). -/
theorem store_then_get_before_buffer_witness :
    get_valid_access_secret 1 100 (fun _ => .error .transient)
        (store 1 0 (fun _ => none) "tom" [1, 2] [3] 3600) "tom"
      = ⟨some [1, 2], store 1 0 (fun _ => none) "tom" [1, 2] [3] 3600, 0⟩ :=
  store_then_get_before_buffer 1 0 100 3600 (fun _ => none) "tom"
    [1, 2] [3] (fun _ => .error .transient) (by norm_num [REFRESH_BUFFER])

/-- C4: when the external refresh operation reports the refresh secret
invalid during a `get_valid_access_secret` call, the credential record is
deleted: the same call returns absent, a repository `get` afterwards finds
no record, and every subsequent `get_valid_access_secret` call returns
absent (making no refresh call) until a new `store`. -/
theorem refresh_invalid_deletes_credential
    (k now : Nat) (repo : Repo) (p : String) (rec : TokenRecord)
    (refreshOp : RefreshOp) (rsec : Plaintext)
    (hget : Repo.get repo p = some rec)
    (hnear : rec.expires_at ≤ now + REFRESH_BUFFER)
    (hdec : decrypt k rec.encrypted_refresh_secret = .ok rsec)
    (hop : refreshOp rsec = .error .invalid) :
    get_valid_access_secret k now refreshOp repo p
        = ⟨none, Repo.delete repo p, 1⟩ ∧
    Repo.get (Repo.delete repo p) p = none ∧
    ∀ (now2 : Nat) (op2 : RefreshOp),
      get_valid_access_secret k now2 op2 (Repo.delete repo p) p
        = ⟨none, Repo.delete repo p, 0⟩ := by
  refine ⟨?_, get_delete_self repo p, fun now2 op2 =>
    get_absent k now2 op2 _ p (get_delete_self repo p)⟩
  cases hda : decrypt k rec.encrypted_access_secret with
  | error e =>
    simp [get_valid_access_secret, hget, refreshPath, hda, hdec, hop]
  | ok a =>
    simp [get_valid_access_secret, hget, refreshPath, hda, hdec, hop, hnear]

/-- Witness for C4: a record whose refresh is rejected as invalid at time
3600 is deleted and stays absent afterwards. -/
theorem refresh_invalid_deletes_credential_witness :
    get_valid_access_secret 1 3600 (fun _ => .error .invalid)
        (store 1 0 (fun _ => none) "tom" [1, 2] [3] 3600) "tom"
      = ⟨none, Repo.delete (store 1 0 (fun _ => none) "tom" [1, 2] [3] 3600) "tom", 1⟩ ∧
    Repo.get (Repo.delete (store 1 0 (fun _ => none) "tom" [1, 2] [3] 3600) "tom") "tom" = none ∧
    get_valid_access_secret 1 4000 (fun _ => .error .transient)
        (Repo.delete (store 1 0 (fun _ => none) "tom" [1, 2] [3] 3600) "tom") "tom"
      = ⟨none, Repo.delete (store 1 0 (fun _ => none) "tom" [1, 2] [3] 3600) "tom", 0⟩ := by
  have h := refresh_invalid_deletes_credential 1 3600
    (store 1 0 (fun _ => none) "tom" [1, 2] [3] 3600) "tom"
    ⟨encrypt 1 [1, 2], encrypt 1 [3], 3600, 0, 0⟩
    (fun _ => .error .invalid) [3]
    (by simp [store, Repo.upsert, Repo.get])
    (by norm_num [REFRESH_BUFFER])
    (decrypt_encrypt 1 [3]) rfl
  exact ⟨h.1, h.2.1, h.2.2 4000 (fun _ => .error .transient)⟩

/-- C5: a principal whose stored ciphertext is missing or fails decryption
is treated as absent at the `get_valid_access_secret` interface once the
refresh path also fails: the call returns the same `none` that a missing
record yields — never a zero-value credential and never a separate error
outcome (the interface has no other error channel). -/
theorem corrupt_or_missing_treated_absent
    (k now : Nat) (repo : Repo) (p : String) (refreshOp : RefreshOp)
    (rec : TokenRecord) :
    (Repo.get repo p = none →
      get_valid_access_secret k now refreshOp repo p = ⟨none, repo, 0⟩) ∧
    (Repo.get repo p = some rec →
      decrypt k rec.encrypted_access_secret = .error .decryptionError →
      (∀ rsec, decrypt k rec.encrypted_refresh_secret = .ok rsec →
        ∃ e, refreshOp rsec = .error e) →
      (get_valid_access_secret k now refreshOp repo p).secret = none) := by
  refine ⟨fun h => get_absent k now refreshOp repo p h, ?_⟩
  intro hget hda hfail
  cases hdr : decrypt k rec.encrypted_refresh_secret with
  | error e =>
    simp [get_valid_access_secret, hget, refreshPath, hda, hdr]
  | ok rsec =>
    obtain ⟨e, he⟩ := hfail rsec hdr
    cases e <;>
      simp [get_valid_access_secret, hget, refreshPath, hda, hdr, he]

/-- Witness for C5: a record whose access ciphertext was written under a
different key (key 9) decrypts to an error under key 1, and with a
transiently failing refresh the call reports absent. -/
theorem corrupt_or_missing_treated_absent_witness :
    get_valid_access_secret 1 50 (fun _ => .error .transient)
        (fun _ => none) "tom" = ⟨none, (fun _ => none), 0⟩ ∧
    (get_valid_access_secret 1 50 (fun _ => .error .transient)
        (fun q => if q = "tom" then
          some ⟨encrypt 9 [1, 2], encrypt 1 [3], 3600, 0, 0⟩ else none)
        "tom").secret = none := by
  constructor
  · exact (corrupt_or_missing_treated_absent 1 50 (fun _ => none) "tom"
      (fun _ => .error .transient)
      ⟨encrypt 9 [1, 2], encrypt 1 [3], 3600, 0, 0⟩).1 rfl
  · exact (corrupt_or_missing_treated_absent 1 50
      (fun q => if q = "tom" then
        some ⟨encrypt 9 [1, 2], encrypt 1 [3], 3600, 0, 0⟩ else none)
      "tom" (fun _ => .error .transient)
      ⟨encrypt 9 [1, 2], encrypt 1 [3], 3600, 0, 0⟩).2
      (by simp [Repo.get]) (by simp [decrypt, encrypt])
      (fun rsec _ => ⟨.transient, rfl⟩)

/-- C6: `get_valid_access_secret` never hands back a secret already past
its `expires_at`: whenever the call returns a secret, either that secret's
record was still unexpired at read time (`now < expires_at`), or the secret
is the freshly refreshed one just obtained from a successful external
refresh call. -/
theorem never_returns_stale_secret
    (k now : Nat) (repo : Repo) (p : String) (refreshOp : RefreshOp)
    (rec : TokenRecord) (a : Plaintext)
    (hget : Repo.get repo p = some rec)
    (hres : (get_valid_access_secret k now refreshOp repo p).secret = some a) :
    now < rec.expires_at ∨
      ∃ rsec fresh, decrypt k rec.encrypted_refresh_secret = .ok rsec ∧
        refreshOp rsec = .ok fresh ∧ a = fresh.access_secret := by
  have hpath : ∀ prev, (refreshPath k now refreshOp repo p rec prev).secret = some a →
      (∃ a0, prev = some a0 ∧ now < rec.expires_at) ∨
      ∃ rsec fresh, decrypt k rec.encrypted_refresh_secret = .ok rsec ∧
        refreshOp rsec = .ok fresh ∧ a = fresh.access_secret := by
    intro prev hp
    cases hdr : decrypt k rec.encrypted_refresh_secret with
    | error e =>
      cases prev with
      | none => simp [refreshPath, hdr] at hp
      | some a0 =>
        by_cases hexp : now < rec.expires_at
        · exact .inl ⟨a0, rfl, hexp⟩
        · simp [refreshPath, hdr, hexp] at hp
    | ok rsec =>
      cases hro : refreshOp rsec with
      | ok fresh =>
        simp [refreshPath, hdr, hro] at hp
        exact .inr ⟨rsec, fresh, rfl, hro, hp.symm⟩
      | error e =>
        cases e with
        | invalid => simp [refreshPath, hdr, hro] at hp
        | transient =>
          cases prev with
          | none => simp [refreshPath, hdr, hro] at hp
          | some a0 =>
            by_cases hexp : now < rec.expires_at
            · exact .inl ⟨a0, rfl, hexp⟩
            · simp [refreshPath, hdr, hro, hexp] at hp
  cases hda : decrypt k rec.encrypted_access_secret with
  | error e =>
    have hres' : (refreshPath k now refreshOp repo p rec none).secret = some a := by
      simpa [get_valid_access_secret, hget, hda] using hres
    rcases hpath none hres' with ⟨a0, h0, _⟩ | h
    · cases h0
    · exact .inr h
  | ok access =>
    by_cases hnear : rec.expires_at ≤ now + REFRESH_BUFFER
    · have hres' : (refreshPath k now refreshOp repo p rec (some access)).secret
          = some a := by
        simpa [get_valid_access_secret, hget, hda, hnear] using hres
      rcases hpath (some access) hres' with ⟨a0, _, hexp⟩ | h
      · exact .inl hexp
      · exact .inr h
    · left
      omega

/-- Witness for C6: a read at time 100 against an unexpired record
(expiry 3600) falls in the unexpired disjunct. -/
theorem never_returns_stale_secret_witness :
    100 < (3600 : Nat) ∨
      ∃ rsec fresh,
        decrypt 1 (encrypt 1 [3]) = .ok rsec ∧
        (fun _ => (.error .transient : Except RefreshError RefreshSuccess)) rsec = .ok fresh ∧
        [1, 2] = fresh.access_secret := by
  have h := never_returns_stale_secret 1 100
    (fun q => if q = "tom" then
      some ⟨encrypt 1 [1, 2], encrypt 1 [3], 3600, 0, 0⟩ else none)
    "tom" (fun _ => .error .transient)
    ⟨encrypt 1 [1, 2], encrypt 1 [3], 3600, 0, 0⟩ [1, 2]
    (by simp [Repo.get])
    (by simp [get_valid_access_secret, Repo.get, decrypt_encrypt, REFRESH_BUFFER])
  exact h

/-- Invariant of the per-principal refresh-lock protocol: callers are
conserved; at most one refresh is ever in flight; a free lock means no
refresh in flight; once the refresh completed no further refresh runs; the
number of refresh calls made is exactly one for the completed refresh plus
one for an in-flight one; and nobody completes before the refresh did. -/
def RaceInv (n : Nat) (s : RefreshRace) : Prop :=
  s.pendingN + s.waitingN + s.refreshingN + s.doneN = n ∧
  s.refreshingN ≤ 1 ∧
  (s.lockHeld = false → s.refreshingN = 0) ∧
  (s.refreshed = true → s.refreshingN = 0) ∧
  s.calls = (if s.refreshed then 1 else 0) + s.refreshingN ∧
  (0 < s.doneN → s.refreshed = true)

lemma race_inv_init (n : Nat) : RaceInv n (RefreshRace.init n) := by
  simp [RaceInv, RefreshRace.init]

lemma race_inv_step {n : Nat} {s t : RefreshRace}
    (h : RaceStep s t) (hi : RaceInv n s) : RaceInv n t := by
  obtain ⟨h1, h2, h3, h4, h5, h6⟩ := hi
  cases h with
  | takeLock hp hl hr =>
    have hr0 : s.refreshingN = 0 := h3 hl
    rw [hr] at h5
    simp only [if_false, Bool.false_eq_true] at h5
    refine ⟨by simp; omega, by simp [hr0], by simp, ?_, ?_, ?_⟩
    · intro hc
      rw [hr] at hc
      cases hc
    · simp [hr, hr0]
      omega
    · intro hd
      exact absurd (h6 hd) (by rw [hr]; exact fun hc => by cases hc)
  | goWait hp hl =>
    refine ⟨by simp; omega, h2, h3, h4, h5, h6⟩
  | finishRefresh hp =>
    have hrf : s.refreshed = false := by
      cases hc : s.refreshed
      · rfl
      · exact absurd hp (by rw [h4 hc]; omega)
    rw [hrf] at h5
    simp only [if_false, Bool.false_eq_true] at h5
    have hr1 : s.refreshingN = 1 := by omega
    refine ⟨by simp; omega, by simp [hr1], by simp [hr1], by simp [hr1],
      by simp [hr1]; omega, by simp⟩
  | wake hp hr =>
    refine ⟨by simp; omega, h2, h3, h4, h5, by simp [hr]⟩
  | fastPath hp hr =>
    refine ⟨by simp; omega, h2, h3, h4, h5, by simp [hr]⟩

/-- C2: under the per-principal refresh serialization contract, `n ≥ 1`
concurrent `get_valid_access_secret` callers that all observe "near
expiry" issue at most one external refresh call at every point of every
interleaving, and exactly one once all `n` callers have completed — a
caller arriving during an in-flight refresh waits for that refresh's
result instead of issuing its own. -/
theorem concurrent_get_single_refresh (n : Nat) (s : RefreshRace)
    (hn : 1 ≤ n) (hs : RaceReachable n s) :
    s.calls ≤ 1 ∧ (s.doneN = n → s.calls = 1) := by
  have hi : RaceInv n s := by
    unfold RaceReachable at hs
    induction hs with
    | refl => exact race_inv_init n
    | tail hab hbc ih => exact race_inv_step hbc ih
  obtain ⟨h1, h2, h3, h4, h5, h6⟩ := hi
  constructor
  · cases hrf : s.refreshed
    · rw [hrf] at h5
      simp only [if_false, Bool.false_eq_true] at h5
      omega
    · have h0 := h4 hrf
      rw [hrf] at h5
      simp only [if_true] at h5
      omega
  · intro hd
    have hrf := h6 (by omega)
    have h0 := h4 hrf
    rw [hrf] at h5
    simp only [if_true] at h5
    omega

/-- Witness for C2: an explicit interleaving of two concurrent callers —
one takes the lock and refreshes, the other waits and is woken with the
refreshed result — ends with both done and exactly one refresh call. -/
theorem concurrent_get_single_refresh_witness :
    (⟨0, 0, 0, 2, false, true, 1⟩ : RefreshRace).calls ≤ 1 ∧
    (⟨0, 0, 0, 2, false, true, 1⟩ : RefreshRace).calls = 1 := by
  have hreach : RaceReachable 2 ⟨0, 0, 0, 2, false, true, 1⟩ := by
    unfold RaceReachable RefreshRace.init
    have s1 : RaceStep ⟨2, 0, 0, 0, false, false, 0⟩ ⟨1, 0, 1, 0, true, false, 1⟩ :=
      RaceStep.takeLock ⟨2, 0, 0, 0, false, false, 0⟩ (by norm_num) rfl rfl
    have s2 : RaceStep ⟨1, 0, 1, 0, true, false, 1⟩ ⟨0, 1, 1, 0, true, false, 1⟩ :=
      RaceStep.goWait ⟨1, 0, 1, 0, true, false, 1⟩ (by norm_num) rfl
    have s3 : RaceStep ⟨0, 1, 1, 0, true, false, 1⟩ ⟨0, 1, 0, 1, false, true, 1⟩ :=
      RaceStep.finishRefresh ⟨0, 1, 1, 0, true, false, 1⟩ (by norm_num)
    have s4 : RaceStep ⟨0, 1, 0, 1, false, true, 1⟩ ⟨0, 0, 0, 2, false, true, 1⟩ :=
      RaceStep.wake ⟨0, 1, 0, 1, false, true, 1⟩ (by norm_num) rfl
    exact Relation.ReflTransGen.head s1 (Relation.ReflTransGen.head s2
      (Relation.ReflTransGen.head s3 (Relation.ReflTransGen.head s4
        Relation.ReflTransGen.refl)))
  exact ⟨(concurrent_get_single_refresh 2 ⟨0, 0, 0, 2, false, true, 1⟩
      (by norm_num) hreach).1,
    (concurrent_get_single_refresh 2 ⟨0, 0, 0, 2, false, true, 1⟩
      (by norm_num) hreach).2 rfl⟩

/-- Invariant of the scheduler: in-flight executions carry pairwise
distinct job names and start times no later than now; finalized records
are well-formed and in the past; every record of a job finished no later
than that job's in-flight execution started; and records of the same job
never overlap. -/
def SchedInv (s : SchedState) : Prop :=
  s.inFlight.Pairwise (fun a b => a.1 ≠ b.1) ∧
  (∀ e ∈ s.inFlight, e.2 ≤ s.now) ∧
  (∀ r ∈ s.records, r.started_at ≤ r.finished_at ∧ r.finished_at ≤ s.now) ∧
  (∀ e ∈ s.inFlight, ∀ r ∈ s.records, r.job_name = e.1 → r.finished_at ≤ e.2) ∧
  s.records.Pairwise (fun a b => a.job_name = b.job_name →
    b.finished_at ≤ a.started_at ∨ a.finished_at ≤ b.started_at)

lemma sched_inv_init : SchedInv SchedState.init := by
  simp [SchedInv, SchedState.init]

lemma sched_inv_step {s t : SchedState}
    (h : SchedStep s t) (hi : SchedInv s) : SchedInv t := by
  obtain ⟨h1, h2, h3, h4, h5⟩ := hi
  cases h with
  | tick d =>
    exact ⟨h1, fun e he => le_trans (h2 e he) (Nat.le_add_right _ _),
      fun r hr => ⟨(h3 r hr).1, le_trans (h3 r hr).2 (Nat.le_add_right _ _)⟩,
      h4, h5⟩
  | dispatch j hj =>
    refine ⟨?_, ?_, h3, ?_, h5⟩
    · rw [List.pairwise_cons]
      exact ⟨fun e he => (hj e he).symm, h1⟩
    · intro e he
      rcases List.mem_cons.mp he with rfl | he'
      · exact le_refl _
      · exact h2 e he'
    · intro e he r hr hname
      rcases List.mem_cons.mp he with rfl | he'
      · exact (h3 r hr).2
      · exact h4 e he' r hr hname
  | rejectRunNow j hj =>
    exact ⟨h1, h2, h3, h4, h5⟩
  | complete j st hmem =>
    have hsub : (s.inFlight.filter (fun e => e.1 != j)).Sublist s.inFlight :=
      List.filter_sublist _
    refine ⟨h1.sublist hsub, fun e he => h2 e (hsub.subset he), ?_, ?_, ?_⟩
    · intro r hr
      rcases List.mem_cons.mp hr with rfl | hr'
      · exact ⟨h2 _ hmem, le_refl _⟩
      · exact h3 r hr'
    · intro e he r hr hname
      have hel : e ∈ s.inFlight := hsub.subset he
      have hne : e.1 ≠ j := by
        have := List.of_mem_filter he
        simpa using this
      rcases List.mem_cons.mp hr with rfl | hr'
      · exact absurd hname.symm hne
      · exact h4 e hel r hr' hname
    · rw [List.pairwise_cons]
      refine ⟨?_, h5⟩
      intro r hr hname
      exact .inl (h4 (j, st) hmem r hr hname.symm)

/-- C7: per-job mutual exclusion of the scheduler — in every reachable
state of every execution history (trigger firings, `run_now` calls,
completions and clock ticks interleaved), at most one execution per job
name is in flight, and no two finalized Run Records of the same job name
have overlapping half-open `[started_at, finished_at)` intervals; a
`run_now` arriving while its job is already running changes nothing. -/
theorem scheduler_mutual_exclusion (s : SchedState) (hs : SchedReachable s) :
    s.inFlight.Pairwise (fun a b => a.1 ≠ b.1) ∧
    s.records.Pairwise (fun a b => ¬ RunRecord.overlaps a b) := by
  have hi : SchedInv s := by
    unfold SchedReachable at hs
    induction hs with
    | refl => exact sched_inv_init
    | tail hab hbc ih => exact sched_inv_step hbc ih
  obtain ⟨h1, h2, h3, h4, h5⟩ := hi
  refine ⟨h1, h5.imp ?_⟩
  intro a b hab hov
  obtain ⟨hjob, hlt⟩ := hov
  rcases hab hjob with h | h
  · have ha : a.started_at < b.finished_at :=
      lt_of_le_of_lt (le_max_left _ _) (lt_of_lt_of_le hlt (min_le_right _ _))
    omega
  · have hb : b.started_at < a.finished_at :=
      lt_of_le_of_lt (le_max_right _ _) (lt_of_lt_of_le hlt (min_le_left _ _))
    omega

/-- Witness for C7: the history dispatch "triage" at 0, reject a `run_now`
while it runs, tick to 5, complete — reaching a state with one record and
an empty in-flight set, where both pairwise properties hold. -/
theorem scheduler_mutual_exclusion_witness :
    (SchedState.mk [] [⟨"triage", 0, 5⟩] 5).inFlight.Pairwise
      (fun a b => a.1 ≠ b.1) ∧
    (SchedState.mk [] [⟨"triage", 0, 5⟩] 5).records.Pairwise
      (fun a b => ¬ RunRecord.overlaps a b) := by
  apply scheduler_mutual_exclusion
  unfold SchedReachable SchedState.init
  have s1 : SchedStep ⟨[], [], 0⟩ ⟨[("triage", 0)], [], 0⟩ :=
    SchedStep.dispatch ⟨[], [], 0⟩ "triage" (by simp)
  have s2 : SchedStep ⟨[("triage", 0)], [], 0⟩ ⟨[("triage", 0)], [], 0⟩ :=
    SchedStep.rejectRunNow ⟨[("triage", 0)], [], 0⟩ "triage"
      ⟨("triage", 0), by simp, rfl⟩
  have s3 : SchedStep ⟨[("triage", 0)], [], 0⟩ ⟨[("triage", 0)], [], 5⟩ :=
    SchedStep.tick ⟨[("triage", 0)], [], 0⟩ 5
  have s4 : SchedStep ⟨[("triage", 0)], [], 5⟩ ⟨[], [⟨"triage", 0, 5⟩], 5⟩ := by
    have h := SchedStep.complete ⟨[("triage", 0)], [], 5⟩ "triage" 0 (by simp)
    simpa using h
  exact Relation.ReflTransGen.head s1 (Relation.ReflTransGen.head s2
    (Relation.ReflTransGen.head s3 (Relation.ReflTransGen.head s4
      Relation.ReflTransGen.refl)))

/-- C9: Task Operation errors are contained by the Scheduler — running a
batch in which one job's operation raises an unhandled error records that
execution's outcome as `failure` while every other job's execution is
exactly what it would have been, and every batch of any behavior yields
one recorded outcome per job (the loop never crashes or stops early). -/
theorem task_error_contained (pre post : List (String × TaskResult))
    (name e : String) :
    schedulerLoopRun (pre ++ (name, Except.error e) :: post)
      = schedulerLoopRun pre ++ (name, Outcome.failure) :: schedulerLoopRun post ∧
    ∀ jobs : List (String × TaskResult),
      (schedulerLoopRun jobs).length = jobs.length := by
  constructor
  · simp [schedulerLoopRun, runOutcome]
  · intro jobs
    simp [schedulerLoopRun]

/-- C10: with the authentication context reporting unauthenticated and not
loading, the Dashboard renders exactly the sign-in prompt; the mount
effect issues no backend request (its `loadDashboardData` call is guarded
by `isAuthenticated`); and the rendered view exposes no control wired to
`loadDashboardData` — those exist only in the authenticated main view. -/
theorem dashboard_unauthenticated_renders_signin_only :
    dashboardView false false = .signInPrompt ∧
    mountEffectRequests false = [] ∧
    viewCanInvokeLoad (dashboardView false false) = false := by
  refine ⟨rfl, rfl, rfl⟩

end Aimelia
